import Mathlib

/-!
Verification of the change-detection / notification pipeline shared by the
monitor scripts of the repository (band tour monitor, hurricanes schedule
monitor, comic events monitor).  The Python code is embedded shallowly:
pure helpers become Lean functions, the per-run mutable state
(`known_shows` / `new_shows`, `known_games` / `new_games`) becomes explicit
state passing, and code that can raise becomes `Except`-valued.
-/

namespace Monitors

/-! ## String primitives

Python `str.lower()` restricted to ASCII, and Python's substring test
`pat in hay`, modelled on the character lists underlying `String`. -/

/-- ASCII lower-casing of one character, as Python `str.lower` acts on the
ASCII inputs used by the monitors. -/
def lcChar (c : Char) : Char :=
  if 'A' ≤ c ∧ c ≤ 'Z' then Char.ofNat (c.toNat + 32) else c

/-- ASCII lower-casing of a string (Python `s.lower()`). -/
def lcStr (s : String) : String :=
  ⟨s.data.map lcChar⟩

/-- `charsStart pat l` : `pat` occurs at the head of `l`. -/
def charsStart : List Char → List Char → Bool
  | [], _ => true
  | _ :: _, [] => false
  | a :: as, b :: bs => a == b && charsStart as bs

/-- `charsHas pat l` : `pat` occurs contiguously somewhere inside `l`. -/
def charsHas (pat : List Char) : List Char → Bool
  | [] => charsStart pat []
  | b :: bs => charsStart pat (b :: bs) || charsHas pat bs

/-- Python's `pat in hay` substring test. -/
def strHas (hay pat : String) : Bool :=
  charsHas pat.data hay.data

/-! ## Known-item stores

Every monitor persists a JSON object mapping a string identifier to the
recorded item.  A Python `dict` is embedded as an association list in
insertion order: membership test, first-match lookup, and `d[k] = v`
assignment (overwrite in place when the key exists, append when new). -/

/-- A persisted known-item store: a string-keyed mapping in insertion
order, as a Python dict loaded from JSON. -/
abbrev KStore (α : Type) := List (String × α)

/-- Python `k in d` on a store. -/
def containsKey {α : Type} (st : KStore α) (k : String) : Bool :=
  st.any (fun p => p.1 == k)

/-- Python `d.get(k)` / `d[k]` on a store: first matching entry. -/
def getVal {α : Type} : KStore α → String → Option α
  | [], _ => none
  | p :: ps, k => if p.1 == k then some p.2 else getVal ps k

/-- Python `d[k] = v`: overwrite the entry in place when `k` is present,
append a fresh entry otherwise. -/
def upsert {α : Type} (st : KStore α) (k : String) (v : α) : KStore α :=
  if containsKey st k then
    st.map (fun p => if p.1 == k then (k, v) else p)
  else
    st ++ [(k, v)]

/-! ## Persisted-document load

`load_known_shows` / `load_known_events` / `load_known_games` all read the
data file inside `try ... except: return {}`, guarded by an existence
check.  The outcome of the read is classified by `PersistedDoc`. -/

/-- Outcome of reading the persisted store document: the file may be
absent, present but unreadable (open or JSON parse raises), or present
with a parsed mapping. -/
inductive PersistedDoc (α : Type) where
  | missing
  | unreadable
  | parsed (m : KStore α)

/-- `load_known_shows` (and the identically shaped `load_known_events`,
`load_known_games`): missing file yields `{}`, any exception while
reading or parsing yields `{}`, a parsed document yields its mapping. -/
def loadStore {α : Type} : PersistedDoc α → KStore α
  | .missing => []
  | .unreadable => []
  | .parsed m => m

/-! ## Criteria filters -/

/-- `TourMonitor.is_in_north_carolina(venue, city, region)`. -/
def isInNorthCarolina (venue city region : String) : Bool :=
  let locationText := lcStr (venue ++ " " ++ city ++ " " ++ region)
  let ncIndicators : List String := [", nc", ",nc", "north carolina", " nc ", " nc,"]
  if ncIndicators.any (fun ind => strHas locationText ind) then
    true
  else if region ≠ "" && (strHas (lcStr region) "nc" || strHas (lcStr region) "north carolina") then
    true
  else
    false

/-- The configured `LOCATIONS` list of `comic_events_monitor.py`. -/
def LOCATIONS : List String :=
  ["NC", "North Carolina", "Raleigh", "Charlotte", "Durham",
   "Greensboro", "Asheville", "Wilmington"]

/-- `ComicEventsMonitor.is_nc_event(event_location)`. -/
def isNcEvent (event_location : String) : Bool :=
  LOCATIONS.any (fun loc => strHas (lcStr event_location) (lcStr loc))

/-! ## Band tour monitor (`band_tour_monitor.py`)

One raw show from the Bandsintown payload is a JSON object; the fields the
loop reads are kept as optional strings (`None` for an absent key, the
`.get` defaults are applied at the use sites, exactly as in the source).
A payload element on which the loop body raises (for example a non-object
element, where `show.get` has no meaning) is the `bad` candidate; the
loop's `try ... except ... continue` turns it into a skipped item with a
diagnostic printed. -/

/-- The fields of one show object read by `TourMonitor.check_band`. -/
structure ShowRec where
  id : Option String
  datetime : Option String
  url : Option String
  venueName : Option String
  city : Option String
  region : Option String
deriving DecidableEq, Repr

/-- One element of the fetched payload: a readable show object, or an
element on which the loop body raises. -/
inductive Candidate where
  | good (s : ShowRec)
  | bad
deriving DecidableEq, Repr

/-- `venue_data.get('name', 'Unknown Venue')`. -/
def venueNameOf (s : ShowRec) : String := s.venueName.getD "Unknown Venue"

/-- `venue_data.get('city', '')`. -/
def cityOf (s : ShowRec) : String := s.city.getD ""

/-- `venue_data.get('region', '')`. -/
def regionOf (s : ShowRec) : String := s.region.getD ""

/-- `show.get('id') or f"{band}-{show.get('datetime', '')}-{venue_name}"`:
the source id when present and truthy, otherwise the synthesized one. -/
def showIdOf (band : String) (s : ShowRec) : String :=
  let fallback := band ++ "-" ++ s.datetime.getD "" ++ "-" ++ venueNameOf s
  match s.id with
  | none => fallback
  | some i => if i = "" then fallback else i

/-- The relevance filter applied to a show:
`self.is_in_north_carolina(venue_name, city, region)`. -/
def relevant (s : ShowRec) : Bool :=
  isInNorthCarolina (venueNameOf s) (cityOf s) (regionOf s)

/-- The `show_info` dict built for a new show (the persisted TrackedItem). -/
structure ShowInfo where
  band : String
  venue : String
  city : String
  region : String
  date : String
  url : String
  show_id : String
deriving DecidableEq, Repr

/-- The `show_info` dict as `check_band` fills it in for a show. -/
def showInfoOf (band : String) (s : ShowRec) : ShowInfo :=
  ⟨band, venueNameOf s, cityOf s, regionOf s,
   s.datetime.getD "TBD", s.url.getD "", showIdOf band s⟩

/-- The monitor's mutable state during a run: `self.known_shows`,
`self.new_shows`, plus a count of the diagnostics printed by the
per-show `except` handler. -/
structure MonState where
  known : KStore ShowInfo
  new : List ShowInfo
  diags : Nat
deriving DecidableEq, Repr

/-- The body of the `for show in shows` loop of `TourMonitor.check_band`:
skip a show that is not in North Carolina, skip a show whose id is already
known, otherwise record the show both in the store and in the new-show
list; a raising element is caught by the handler, which prints a
diagnostic and continues. -/
def processShow (band : String) (st : MonState) (c : Candidate) : MonState :=
  match c with
  | .bad => { st with diags := st.diags + 1 }
  | .good s =>
    if relevant s then
      let sid := showIdOf band s
      if containsKey st.known sid then st
      else
        let info := showInfoOf band s
        { st with known := upsert st.known sid info, new := st.new ++ [info] }
    else st

/-- `TourMonitor.check_band(band)` applied to the fetched payload. -/
def checkBand (band : String) (st : MonState) (shows : List Candidate) : MonState :=
  shows.foldl (processShow band) st

/-- The `for band in BANDS: self.check_band(band)` loop of
`TourMonitor.run`, over the list of (band, fetched payload) pairs. -/
def runBatches : MonState → List (String × List Candidate) → MonState
  | st, [] => st
  | st, (b, shows) :: rest => runBatches (checkBand b st shows) rest

/-- The observable outcome of `TourMonitor.run`: the mapping written by
`save_known_shows` (a full overwrite of the data file with
`self.known_shows`), the delta `self.new_shows`, and the diagnostics. -/
structure RunResult where
  saved : KStore ShowInfo
  delta : List ShowInfo
  diags : Nat
deriving DecidableEq, Repr

/-- `TourMonitor.run` for a monitor constructed with store `start`
(`self.known_shows` as loaded, `self.new_shows = []`), given the payload
each band's fetch produced: check every band, then save. -/
def runMonitor (start : KStore ShowInfo)
    (fetches : List (String × List Candidate)) : RunResult :=
  let fin := runBatches ⟨start, [], 0⟩ fetches
  ⟨fin.known, fin.new, fin.diags⟩

/-- Outcome of the network/parse part of `TourMonitor.fetch_shows`: any
exception in the `try` block, a decoded payload that is not a JSON list,
or a decoded list of candidates. -/
inductive BandNet where
  | err
  | nonList
  | list (shows : List Candidate)
deriving DecidableEq, Repr

/-- `TourMonitor.fetch_shows(band)`: an exception is caught, printed and
turned into `[]`; a non-list payload yields `[]`; a list is returned. -/
def fetchShows : BandNet → List Candidate
  | .err => []
  | .nonList => []
  | .list shows => shows

/-! ## Hurricanes schedule monitor (`hurricanes_monitor.py`)

One game object of the NHL schedule payload.  `game['gamePk']` and the
nested `game['teams']['home']['team']['name']` / away accesses are plain
subscripts: a missing key raises `KeyError`, and `check_games` has no
handler around the loop body, so the exception propagates (embedded as
`Except.error`).  `venue` and `gameDate` are read with `.get` defaults. -/

/-- The fields of one game object read by `HurricanesMonitor.check_games`:
`none` models an absent key. -/
structure GameRec where
  gamePk : Option Nat
  homeTeam : Option String
  awayTeam : Option String
  venue : Option String
  gameDate : Option String
deriving DecidableEq, Repr

/-- One element of `schedule['dates']`: the date string and its games. -/
structure DateInfo where
  date : String
  games : List GameRec
deriving DecidableEq, Repr

/-- The `game_info` dict recorded for a new game. -/
structure GameInfo where
  game_id : String
  date : String
  time : String
  opponent : String
  location : String
  venue : String
  home_team : String
  away_team : String
deriving DecidableEq, Repr

/-- The configured `TEAM_NAME`. -/
def TEAM_NAME : String := "Carolina Hurricanes"

/-- `self.known_games` and `self.new_games` during a hurricanes run. -/
structure HzState where
  known : KStore GameInfo
  new : List GameInfo
deriving DecidableEq, Repr

/-- The body of the `for game in date_info['games']` loop of
`HurricanesMonitor.check_games`.  A missing `gamePk` raises before
anything else; a known id is skipped before the team fields are touched;
a missing home or away team name raises; otherwise the game is recorded
in the store and the new-game list.  There is no handler in the loop, so
a raise is an `error` that the caller propagates. -/
def processGame (date : String) (st : HzState) (g : GameRec) : Except Unit HzState :=
  match g.gamePk with
  | none => .error ()
  | some pk =>
    let game_id := toString pk
    if containsKey st.known game_id then .ok st
    else
      match g.homeTeam, g.awayTeam with
      | some home_team, some away_team =>
        let venue := g.venue.getD "TBD"
        let game_time := g.gameDate.getD "TBD"
        let is_home := home_team == TEAM_NAME
        let opponent := if is_home then away_team else home_team
        let location := if is_home then "Home" else "Away"
        let info : GameInfo :=
          ⟨game_id, date, game_time, opponent, location, venue,
           home_team, away_team⟩
        .ok { known := upsert st.known game_id info, new := st.new ++ [info] }
      | _, _ => .error ()

/-- The game loop of `check_games` over one date's games: the first raise
aborts the rest of the loop. -/
def processGames (date : String) : HzState → List GameRec → Except Unit HzState
  | st, [] => .ok st
  | st, g :: gs =>
    match processGame date st g with
    | .error e => .error e
    | .ok st' => processGames date st' gs

/-- The `for date_info in schedule['dates']` loop of `check_games`. -/
def processDates : HzState → List DateInfo → Except Unit HzState
  | st, [] => .ok st
  | st, d :: ds =>
    match processGames d.date st d.games with
    | .error e => .error e
    | .ok st' => processDates st' ds

/-- The schedule value `check_games` receives from `fetch_schedule`:
`fail` is Python `None` (the except branch), `noDates` a truthy-failing
or `'dates'`-less document, `dates` a usable document. -/
inductive HzSchedule where
  | fail
  | noDates
  | dates (ds : List DateInfo)
deriving DecidableEq, Repr

/-- Outcome of the network/parse part of `HurricanesMonitor.fetch_schedule`:
an exception in the `try` block, or a decoded document with or without a
usable `'dates'` list. -/
inductive HzNet where
  | err
  | ok (ds : Option (List DateInfo))
deriving DecidableEq, Repr

/-- `HurricanesMonitor.fetch_schedule()`: an exception is caught, printed
and turned into `None` (`HzSchedule.fail`); otherwise the decoded
document is returned. -/
def fetchSchedule : HzNet → HzSchedule
  | .err => .fail
  | .ok none => .noDates
  | .ok (some ds) => .dates ds

/-- `HurricanesMonitor.check_games()`: on a missing schedule or a document
without `'dates'` it prints and returns with the state untouched;
otherwise it runs the date loop, whose exceptions propagate. -/
def hzCheckGames (st : HzState) (sched : HzSchedule) : Except Unit HzState :=
  match sched with
  | .fail => .ok st
  | .noDates => .ok st
  | .dates ds => processDates st ds

/-- The observable outcome of a completed `HurricanesMonitor.run`: the
final in-memory store, the delta, and how many times `save_known_games`
was invoked. -/
structure HzRunOut where
  known : KStore GameInfo
  delta : List GameInfo
  saves : Nat
deriving DecidableEq, Repr

/-- `HurricanesMonitor.run()`: check the games (an exception terminates
the run), then save and return the message only when `self.new_games` is
non-empty — a run that found nothing new never calls
`save_known_games`. -/
def hzRun (start : KStore GameInfo) (sched : HzSchedule) : Except Unit HzRunOut :=
  match hzCheckGames ⟨start, []⟩ sched with
  | .error e => .error e
  | .ok st =>
    if st.new.isEmpty then .ok ⟨st.known, st.new, 0⟩
    else .ok ⟨st.known, st.new, 1⟩

/-! ## Store-operation trace of a band run

For the temporal claim about `save_known_shows`, the store operations a
band run performs are made explicit: one `upsertEv` per show inserted by
`check_band`, and one `saveEv` (carrying the full mapping it overwrites
the document with) where `run` calls `save_known_shows`. -/

/-- One store operation of a band run. -/
inductive BandEv where
  | upsertEv (k : String)
  | saveEv (m : KStore ShowInfo)
deriving DecidableEq, Repr

/-- Whether a store operation is a save. -/
def BandEv.isSave : BandEv → Bool
  | .saveEv _ => true
  | _ => false

/-- The store operations the `check_band` loop body performs on one
candidate (one upsert when the show is new and relevant, none
otherwise). -/
def showEvents (band : String) (st : MonState) (c : Candidate) : List BandEv :=
  match c with
  | .bad => []
  | .good s =>
    if relevant s then
      if containsKey st.known (showIdOf band s) then []
      else [BandEv.upsertEv (showIdOf band s)]
    else []

/-- The store operations of `check_band` over a payload. -/
def bandTrace (band : String) : MonState → List Candidate → List BandEv
  | _, [] => []
  | st, c :: cs => showEvents band st c ++ bandTrace band (processShow band st c) cs

/-- The store operations of the band loop of `run`. -/
def batchesTrace : MonState → List (String × List Candidate) → List BandEv
  | _, [] => []
  | st, (b, shows) :: rest =>
    bandTrace b st shows ++ batchesTrace (checkBand b st shows) rest

/-- The store operations of one complete `TourMonitor.run`: the loop's
upserts followed by the single unconditional `save_known_shows()`. -/
def bandRunEvents (start : KStore ShowInfo)
    (fetches : List (String × List Candidate)) : List BandEv :=
  batchesTrace ⟨start, [], 0⟩ fetches
    ++ [BandEv.saveEv (runBatches ⟨start, [], 0⟩ fetches).known]

/-! ## Store lemmas -/

lemma containsKey_append {α : Type} (a b : KStore α) (k : String) :
    containsKey (a ++ b) k = (containsKey a k || containsKey b k) := by
  simp [containsKey]

lemma getVal_append_left {α : Type} (b : KStore α) (k : String) :
    ∀ a : KStore α, containsKey a k = true → getVal (a ++ b) k = getVal a k := by
  intro a
  induction a with
  | nil => intro h; simp [containsKey] at h
  | cons p ps ih =>
    intro h
    by_cases hp : p.1 == k
    · simp [getVal, hp]
    · simp only [containsKey, List.any_cons, hp, Bool.false_or] at h
      simp [getVal, hp, ih h]

lemma countP_key_eq_zero {α : Type} (k : String) :
    ∀ st : KStore α, containsKey st k = false →
      st.countP (fun p => p.1 == k) = 0 := by
  intro st
  induction st with
  | nil => intro _; rfl
  | cons p ps ih =>
    intro h
    simp only [containsKey, List.any_cons, Bool.or_eq_false_iff] at h
    simp [List.countP_cons, h.1, ih h.2]

/-! ## Step lemmas for the band change-detection loop -/

lemma upsert_of_not_contains {α : Type} (st : KStore α) (k : String) (v : α)
    (h : containsKey st k = false) : upsert st k v = st ++ [(k, v)] := by
  simp [upsert, h]

/-- An irrelevant show leaves the state untouched. -/
lemma processShow_irrelevant (b : String) (st : MonState) (s : ShowRec)
    (hrel : relevant s = false) : processShow b st (Candidate.good s) = st := by
  simp [processShow, hrel]

/-- A relevant show whose id is already known leaves the state untouched. -/
lemma processShow_skip (b : String) (st : MonState) (s : ShowRec)
    (hrel : relevant s = true)
    (hk : containsKey st.known (showIdOf b s) = true) :
    processShow b st (Candidate.good s) = st := by
  simp [processShow, hrel, hk]

/-- A relevant show with a fresh id appends one store entry and one
delta entry. -/
lemma processShow_insert (b : String) (st : MonState) (s : ShowRec)
    (hrel : relevant s = true)
    (hk : containsKey st.known (showIdOf b s) = false) :
    processShow b st (Candidate.good s) =
      { st with known := st.known ++ [(showIdOf b s, showInfoOf b s)],
                new := st.new ++ [showInfoOf b s] } := by
  simp [processShow, hrel, hk, upsert_of_not_contains _ _ _ hk]

/-- Processing one candidate never removes a key, never rewrites the
record of a key that was already present, and only appends new-show
entries whose id was absent from the store. -/
lemma processShow_preserve (b : String) (st : MonState) (c : Candidate)
    (k : String) (h : containsKey st.known k = true) :
    containsKey (processShow b st c).known k = true ∧
    getVal (processShow b st c).known k = getVal st.known k ∧
    ∀ d ∈ (processShow b st c).new, d ∈ st.new ∨ d.show_id ≠ k := by
  cases c with
  | bad => exact ⟨h, rfl, fun d hd => Or.inl hd⟩
  | good s =>
    by_cases hrel : relevant s
    · by_cases hk : containsKey st.known (showIdOf b s)
      · rw [processShow_skip b st s hrel hk]
        exact ⟨h, rfl, fun d hd => Or.inl hd⟩
      · have hkf : containsKey st.known (showIdOf b s) = false :=
          Bool.not_eq_true _ ▸ eq_false_of_ne_true hk
        have hne : showIdOf b s ≠ k := by
          intro he; rw [he, h] at hkf; cases hkf
        rw [processShow_insert b st s hrel hkf]
        refine ⟨?_, ?_, ?_⟩
        · rw [containsKey_append, h]; rfl
        · exact getVal_append_left _ k st.known h
        · intro d hd
          rcases List.mem_append.mp hd with hold | hnew
          · exact Or.inl hold
          · right
            rcases List.mem_singleton.mp hnew with rfl
            simpa [showInfoOf] using hne
    · rw [processShow_irrelevant b st s (eq_false_of_ne_true hrel)]
      exact ⟨h, rfl, fun d hd => Or.inl hd⟩

/-- After processing a relevant show, its id is in the store. -/
lemma processShow_covers (b : String) (st : MonState) (s : ShowRec)
    (hrel : relevant s = true) :
    containsKey (processShow b st (Candidate.good s)).known (showIdOf b s) = true := by
  by_cases hk : containsKey st.known (showIdOf b s)
  · rw [processShow_skip b st s hrel hk]; exact hk
  · have hkf : containsKey st.known (showIdOf b s) = false :=
      Bool.not_eq_true _ ▸ eq_false_of_ne_true hk
    rw [processShow_insert b st s hrel hkf]
    rw [containsKey_append]
    simp [containsKey]

/-- Processing a candidate whose id is covered by the store (or which is
irrelevant, or which raises) leaves the store and the delta unchanged. -/
lemma processShow_covered_noop (b : String) (st : MonState) (c : Candidate)
    (h : ∀ s, c = Candidate.good s → relevant s = true →
      containsKey st.known (showIdOf b s) = true) :
    (processShow b st c).known = st.known ∧ (processShow b st c).new = st.new := by
  cases c with
  | bad => exact ⟨rfl, rfl⟩
  | good s =>
    by_cases hrel : relevant s
    · rw [processShow_skip b st s hrel (h s rfl hrel)]
      exact ⟨rfl, rfl⟩
    · rw [processShow_irrelevant b st s (eq_false_of_ne_true hrel)]
      exact ⟨rfl, rfl⟩

/-! ## Loop lemmas for `check_band` and `run` -/

lemma checkBand_preserve (b : String) (k : String) :
    ∀ (shows : List Candidate) (st : MonState),
      containsKey st.known k = true →
      containsKey (checkBand b st shows).known k = true ∧
      getVal (checkBand b st shows).known k = getVal st.known k ∧
      ∀ d ∈ (checkBand b st shows).new, d ∈ st.new ∨ d.show_id ≠ k := by
  intro shows
  induction shows with
  | nil => intro st h; exact ⟨h, rfl, fun d hd => Or.inl hd⟩
  | cons c cs ih =>
    intro st h
    obtain ⟨h1, h2, h3⟩ := processShow_preserve b st c k h
    obtain ⟨g1, g2, g3⟩ := ih (processShow b st c) h1
    refine ⟨g1, g2.trans h2, fun d hd => ?_⟩
    rcases g3 d hd with hmem | hne
    · exact h3 d hmem
    · exact Or.inr hne

lemma checkBand_covers (b : String) (s : ShowRec) (hrel : relevant s = true) :
    ∀ (shows : List Candidate) (st : MonState),
      Candidate.good s ∈ shows →
      containsKey (checkBand b st shows).known (showIdOf b s) = true := by
  intro shows
  induction shows with
  | nil => intro st hmem; cases hmem
  | cons c cs ih =>
    intro st hmem
    rcases List.mem_cons.mp hmem with heq | htail
    · subst heq
      exact (checkBand_preserve b (showIdOf b s) cs (processShow b st (Candidate.good s))
        (processShow_covers b st s hrel)).1
    · exact ih (processShow b st c) htail

lemma checkBand_covered_noop (b : String) :
    ∀ (shows : List Candidate) (st : MonState),
      (∀ s, Candidate.good s ∈ shows → relevant s = true →
        containsKey st.known (showIdOf b s) = true) →
      (checkBand b st shows).known = st.known ∧
      (checkBand b st shows).new = st.new := by
  intro shows
  induction shows with
  | nil => intro st _; exact ⟨rfl, rfl⟩
  | cons c cs ih =>
    intro st h
    obtain ⟨h1, h2⟩ := processShow_covered_noop b st c
      (fun s hc hrel => h s (hc ▸ List.mem_cons_self c cs) hrel)
    obtain ⟨g1, g2⟩ := ih (processShow b st c)
      (fun s hmem hrel => h1 ▸ h s (List.mem_cons_of_mem c hmem) hrel)
    exact ⟨g1.trans h1, g2.trans h2⟩

lemma runBatches_preserve (k : String) :
    ∀ (fetches : List (String × List Candidate)) (st : MonState),
      containsKey st.known k = true →
      containsKey (runBatches st fetches).known k = true ∧
      getVal (runBatches st fetches).known k = getVal st.known k ∧
      ∀ d ∈ (runBatches st fetches).new, d ∈ st.new ∨ d.show_id ≠ k := by
  intro fetches
  induction fetches with
  | nil => intro st h; exact ⟨h, rfl, fun d hd => Or.inl hd⟩
  | cons p rest ih =>
    intro st h
    obtain ⟨h1, h2, h3⟩ := checkBand_preserve p.1 k p.2 st h
    obtain ⟨g1, g2, g3⟩ := ih (checkBand p.1 st p.2) h1
    refine ⟨g1, g2.trans h2, fun d hd => ?_⟩
    rcases g3 d hd with hmem | hne
    · exact h3 d hmem
    · exact Or.inr hne

lemma runBatches_covers (b : String) (shows : List Candidate) (s : ShowRec)
    (hrel : relevant s = true) (hs : Candidate.good s ∈ shows) :
    ∀ (fetches : List (String × List Candidate)) (st : MonState),
      (b, shows) ∈ fetches →
      containsKey (runBatches st fetches).known (showIdOf b s) = true := by
  intro fetches
  induction fetches with
  | nil => intro st hmem; cases hmem
  | cons p rest ih =>
    intro st hmem
    rcases List.mem_cons.mp hmem with heq | htail
    · subst heq
      exact (runBatches_preserve (showIdOf b s) rest (checkBand b st shows)
        (checkBand_covers b s hrel shows st hs)).1
    · exact ih (checkBand p.1 st p.2) htail

lemma runBatches_covered_noop :
    ∀ (fetches : List (String × List Candidate)) (st : MonState),
      (∀ b shows s, (b, shows) ∈ fetches → Candidate.good s ∈ shows →
        relevant s = true → containsKey st.known (showIdOf b s) = true) →
      (runBatches st fetches).known = st.known ∧
      (runBatches st fetches).new = st.new := by
  intro fetches
  induction fetches with
  | nil => intro st _; exact ⟨rfl, rfl⟩
  | cons p rest ih =>
    intro st h
    obtain ⟨h1, h2⟩ := checkBand_covered_noop p.1 p.2 st
      (fun s hmem hrel => h p.1 p.2 s (List.mem_cons_self p rest) hmem hrel)
    obtain ⟨g1, g2⟩ := ih (checkBand p.1 st p.2)
      (fun b shows s hf hmem hrel =>
        h1 ▸ h b shows s (List.mem_cons_of_mem p hf) hmem hrel)
    exact ⟨g1.trans h1, g2.trans h2⟩

/-! ## Step and loop lemmas for the hurricanes change-detection loop -/

/-- Processing one game that does not raise never removes a key, never
rewrites the record of a key that was already present, and only appends
new-game entries whose id was absent from the store. -/
lemma processGame_preserve (d : String) (st : HzState) (g : GameRec)
    (st' : HzState) (k : String)
    (hp : processGame d st g = Except.ok st')
    (h : containsKey st.known k = true) :
    containsKey st'.known k = true ∧ getVal st'.known k = getVal st.known k ∧
    ∀ x ∈ st'.new, x ∈ st.new ∨ x.game_id ≠ k := by
  cases hpk : g.gamePk with
  | none => rw [processGame, hpk] at hp; cases hp
  | some pk =>
    rw [processGame, hpk] at hp
    dsimp only at hp
    by_cases hkn : containsKey st.known (toString pk)
    · rw [if_pos hkn] at hp
      cases hp
      exact ⟨h, rfl, fun x hx => Or.inl hx⟩
    · rw [if_neg hkn] at hp
      have hknf : containsKey st.known (toString pk) = false :=
        Bool.not_eq_true _ ▸ eq_false_of_ne_true hkn
      have hne : toString pk ≠ k := by
        intro he; rw [he, h] at hknf; cases hknf
      cases hht : g.homeTeam with
      | none => rw [hht] at hp; cases hat : g.awayTeam <;> rw [hat] at hp <;> cases hp
      | some home_team =>
        cases hat : g.awayTeam with
        | none => rw [hht, hat] at hp; cases hp
        | some away_team =>
          rw [hht, hat] at hp
          dsimp only at hp
          rw [upsert_of_not_contains _ _ _ hknf] at hp
          cases hp
          refine ⟨?_, ?_, ?_⟩
          · rw [containsKey_append, h]; rfl
          · exact getVal_append_left _ k st.known h
          · intro x hx
            rcases List.mem_append.mp hx with hold | hnew
            · exact Or.inl hold
            · right
              rcases List.mem_singleton.mp hnew with rfl
              exact hne

lemma processGames_preserve (d : String) (k : String) :
    ∀ (gs : List GameRec) (st st' : HzState),
      processGames d st gs = Except.ok st' →
      containsKey st.known k = true →
      containsKey st'.known k = true ∧ getVal st'.known k = getVal st.known k ∧
      ∀ x ∈ st'.new, x ∈ st.new ∨ x.game_id ≠ k := by
  intro gs
  induction gs with
  | nil =>
    intro st st' hp h
    cases hp
    exact ⟨h, rfl, fun x hx => Or.inl hx⟩
  | cons g gs ih =>
    intro st st' hp h
    rw [processGames] at hp
    cases hg : processGame d st g with
    | error e => rw [hg] at hp; cases hp
    | ok st1 =>
      rw [hg] at hp
      obtain ⟨h1, h2, h3⟩ := processGame_preserve d st g st1 k hg h
      obtain ⟨g1, g2, g3⟩ := ih st1 st' hp h1
      refine ⟨g1, g2.trans h2, fun x hx => ?_⟩
      rcases g3 x hx with hmem | hne
      · exact h3 x hmem
      · exact Or.inr hne

lemma processDates_preserve (k : String) :
    ∀ (ds : List DateInfo) (st st' : HzState),
      processDates st ds = Except.ok st' →
      containsKey st.known k = true →
      containsKey st'.known k = true ∧ getVal st'.known k = getVal st.known k ∧
      ∀ x ∈ st'.new, x ∈ st.new ∨ x.game_id ≠ k := by
  intro ds
  induction ds with
  | nil =>
    intro st st' hp h
    cases hp
    exact ⟨h, rfl, fun x hx => Or.inl hx⟩
  | cons d ds ih =>
    intro st st' hp h
    rw [processDates] at hp
    cases hg : processGames d.date st d.games with
    | error e => rw [hg] at hp; cases hp
    | ok st1 =>
      rw [hg] at hp
      obtain ⟨h1, h2, h3⟩ := processGames_preserve d.date k d.games st st1 hg h
      obtain ⟨g1, g2, g3⟩ := ih st1 st' hp h1
      refine ⟨g1, g2.trans h2, fun x hx => ?_⟩
      rcases g3 x hx with hmem | hne
      · exact h3 x hmem
      · exact Or.inr hne

/-- A completed hurricanes run also preserves every loaded entry and
reports no delta item under an already-known id. -/
lemma hzRun_preserve (start : KStore GameInfo) (sched : HzSchedule)
    (out : HzRunOut) (k : String)
    (h : hzRun start sched = Except.ok out)
    (hk : containsKey start k = true) :
    containsKey out.known k = true ∧ getVal out.known k = getVal start k ∧
    ∀ x ∈ out.delta, x.game_id ≠ k := by
  rw [hzRun] at h
  cases hcg : hzCheckGames ⟨start, []⟩ sched with
  | error e => rw [hcg] at h; cases h
  | ok st =>
    rw [hcg] at h
    dsimp only at h
    have hst : containsKey st.known k = true ∧
        getVal st.known k = getVal start k ∧
        ∀ x ∈ st.new, x ∈ ([] : List GameInfo) ∨ x.game_id ≠ k := by
      cases sched with
      | fail => cases hcg; exact ⟨hk, rfl, fun x hx => absurd hx (List.not_mem_nil x)⟩
      | noDates => cases hcg; exact ⟨hk, rfl, fun x hx => absurd hx (List.not_mem_nil x)⟩
      | dates ds => exact processDates_preserve k ds ⟨start, []⟩ st hcg hk
    obtain ⟨h1, h2, h3⟩ := hst
    have hout : out.known = st.known ∧ out.delta = st.new := by
      by_cases he : st.new.isEmpty
      · rw [if_pos he] at h; cases h; exact ⟨rfl, rfl⟩
      · rw [if_neg he] at h; cases h; exact ⟨rfl, rfl⟩
    rw [hout.1, hout.2]
    refine ⟨h1, h2, fun x hx => ?_⟩
    rcases h3 x hx with hmem | hne
    · exact absurd hmem (List.not_mem_nil x)
    · exact hne

/-! ## Sample data used by the concrete witnesses -/

/-- A show in Raleigh, NC with a source-provided id. -/
def sampleShow : ShowRec :=
  ⟨some "X-2024-01-01", some "2024-01-01T20:00:00", none,
   some "PNC Arena", some "Raleigh", some "NC"⟩

/-- A previously stored record under the same id as `sampleShow`, with
different attribute values. -/
def storedInfo : ShowInfo :=
  ⟨"Metallica", "Old Venue", "Durham", "NC", "2023-01-01", "", "X-2024-01-01"⟩

/-! ## Sample hurricanes data -/

/-- A game object missing `gamePk`: the loop body raises on it. -/
def hzBadGame : GameRec :=
  ⟨none, some "Carolina Hurricanes", some "New Jersey Devils", none, none⟩

/-- A readable home game. -/
def hzGoodGame : GameRec :=
  ⟨some 42, some "Carolina Hurricanes", some "New Jersey Devils",
   some "PNC Arena", some "2024-01-01T00:00:00Z"⟩

/-- The `game_info` record `check_games` builds for `hzGoodGame`. -/
def hzGoodInfo : GameInfo :=
  ⟨"42", "2024-01-01", "2024-01-01T00:00:00Z", "New Jersey Devils", "Home",
   "PNC Arena", "Carolina Hurricanes", "New Jersey Devils"⟩

/-! ## Claim theorems -/

/-- C1: for every starting store and every candidate sequence, running the
band monitor to completion (including the save) and then running it again
over the same candidate sequence, starting from the saved store, yields an
empty delta on the second run. -/
theorem second_run_delta_empty (start : KStore ShowInfo)
    (fetches : List (String × List Candidate)) :
    (runMonitor (runMonitor start fetches).saved fetches).delta = [] := by
  simp only [runMonitor]
  exact (runBatches_covered_noop fetches
    ⟨(runBatches ⟨start, [], 0⟩ fetches).known, [], 0⟩
    (fun b shows s hf hmem hrel =>
      runBatches_covers b shows s hrel hmem fetches ⟨start, [], 0⟩ hf)).2

/-- C2: the store load never raises: a missing document and an unreadable
document both give the empty mapping, a readable valid document gives its
parsed mapping. -/
theorem load_missing_or_corrupt_empty (α : Type) (m : KStore α) :
    loadStore (PersistedDoc.missing : PersistedDoc α) = [] ∧
    loadStore (PersistedDoc.unreadable : PersistedDoc α) = [] ∧
    loadStore (PersistedDoc.parsed m) = m :=
  ⟨rfl, rfl, rfl⟩

/-- C5: a batch containing the same relevant candidate twice, with an
identifier absent from the store, produces a delta of length 1 and exactly
one store entry for that identifier. -/
theorem duplicate_in_batch_single_delta (b : String) (c : ShowRec)
    (store : KStore ShowInfo)
    (hrel : relevant c = true)
    (hnew : containsKey store (showIdOf b c) = false) :
    (runMonitor store [(b, [Candidate.good c, Candidate.good c])]).delta.length = 1 ∧
    (runMonitor store [(b, [Candidate.good c, Candidate.good c])]).saved.countP
      (fun p => p.1 == showIdOf b c) = 1 := by
  have h1 : processShow b ⟨store, [], 0⟩ (Candidate.good c) =
      ⟨store ++ [(showIdOf b c, showInfoOf b c)], [showInfoOf b c], 0⟩ := by
    rw [processShow_insert b ⟨store, [], 0⟩ c hrel hnew]
    rfl
  have hk1 : containsKey (store ++ [(showIdOf b c, showInfoOf b c)]) (showIdOf b c) = true := by
    rw [containsKey_append, hnew]
    simp [containsKey]
  have h2 : processShow b
      ⟨store ++ [(showIdOf b c, showInfoOf b c)], [showInfoOf b c], 0⟩
      (Candidate.good c) =
      ⟨store ++ [(showIdOf b c, showInfoOf b c)], [showInfoOf b c], 0⟩ :=
    processShow_skip b _ c hrel hk1
  simp only [runMonitor, runBatches, checkBand, List.foldl_cons, List.foldl_nil, h1, h2]
  constructor
  · rfl
  · rw [List.countP_append, countP_key_eq_zero (showIdOf b c) store hnew]
    simp [List.countP_cons]

/-- C5 witness: the duplicated Raleigh show with id `"X-2024-01-01"`
against the empty store. -/
theorem duplicate_in_batch_single_delta_witness :
    relevant sampleShow = true ∧
    containsKey ([] : KStore ShowInfo) (showIdOf "Metallica" sampleShow) = false ∧
    ((runMonitor [] [("Metallica", [Candidate.good sampleShow, Candidate.good sampleShow])]).delta.length = 1 ∧
     (runMonitor [] [("Metallica", [Candidate.good sampleShow, Candidate.good sampleShow])]).saved.countP
       (fun p => p.1 == showIdOf "Metallica" sampleShow) = 1) :=
  ⟨by decide, by decide,
   duplicate_in_batch_single_delta "Metallica" sampleShow [] (by decide) (by decide)⟩

/-- C6: a candidate whose resolved id is already in the loaded store is
excluded from the delta, and the stored record under that id is unchanged
by the run, whatever the candidate's attribute values are — in the band
monitor (the id `showIdOf b s` of candidate `s`) and in a completed
hurricanes run (the id `gid`, the `str(gamePk)` of a game candidate). -/
theorem known_id_excluded_and_unchanged (start : KStore ShowInfo)
    (fetches : List (String × List Candidate)) (b : String) (s : ShowRec)
    (hstart : KStore GameInfo) (sched : HzSchedule) (out : HzRunOut)
    (gid : String)
    (h : containsKey start (showIdOf b s) = true)
    (hz1 : hzRun hstart sched = Except.ok out)
    (hz2 : containsKey hstart gid = true) :
    ((∀ d ∈ (runMonitor start fetches).delta, d.show_id ≠ showIdOf b s) ∧
     getVal (runMonitor start fetches).saved (showIdOf b s) =
       getVal start (showIdOf b s)) ∧
    ((∀ x ∈ out.delta, x.game_id ≠ gid) ∧
     getVal out.known gid = getVal hstart gid) := by
  constructor
  · obtain ⟨h1, h2, h3⟩ := runBatches_preserve (showIdOf b s) fetches ⟨start, [], 0⟩ h
    simp only [runMonitor]
    refine ⟨fun d hd => ?_, h2⟩
    rcases h3 d hd with hmem | hne
    · exact absurd hmem (List.not_mem_nil d)
    · exact hne
  · obtain ⟨_, g2, g3⟩ := hzRun_preserve hstart sched out gid hz1 hz2
    exact ⟨g3, g2⟩

/-- C6 witness: a band run that re-encounters id `"X-2024-01-01"` with
changed attribute values and a hurricanes run that re-encounters game
`"42"` both leave the stored record intact and report nothing. -/
theorem known_id_excluded_and_unchanged_witness :
    containsKey [("X-2024-01-01", storedInfo)] (showIdOf "Metallica" sampleShow) = true ∧
    hzRun [("42", hzGoodInfo)] (HzSchedule.dates [⟨"2024-01-01", [hzGoodGame]⟩]) =
      Except.ok ⟨[("42", hzGoodInfo)], [], 0⟩ ∧
    containsKey [("42", hzGoodInfo)] "42" = true ∧
    (((∀ d ∈ (runMonitor [("X-2024-01-01", storedInfo)]
         [("Metallica", [Candidate.good sampleShow])]).delta,
         d.show_id ≠ showIdOf "Metallica" sampleShow) ∧
      getVal (runMonitor [("X-2024-01-01", storedInfo)]
         [("Metallica", [Candidate.good sampleShow])]).saved
         (showIdOf "Metallica" sampleShow) =
       getVal [("X-2024-01-01", storedInfo)] (showIdOf "Metallica" sampleShow)) ∧
     ((∀ x ∈ (⟨[("42", hzGoodInfo)], [], 0⟩ : HzRunOut).delta, x.game_id ≠ "42") ∧
      getVal (⟨[("42", hzGoodInfo)], [], 0⟩ : HzRunOut).known "42" =
        getVal [("42", hzGoodInfo)] "42")) :=
  ⟨by decide, rfl, by decide,
   known_id_excluded_and_unchanged [("X-2024-01-01", storedInfo)]
     [("Metallica", [Candidate.good sampleShow])] "Metallica" sampleShow
     [("42", hzGoodInfo)] (HzSchedule.dates [⟨"2024-01-01", [hzGoodGame]⟩])
     ⟨[("42", hzGoodInfo)], [], 0⟩ "42" (by decide) rfl (by decide)⟩

/-- C8: the location predicate accepts `venue="PNC Arena", city="Raleigh",
region="NC"` and rejects the same venue and city with `region="SC"`. -/
theorem location_predicate_scenario :
    isInNorthCarolina "PNC Arena" "Raleigh" "NC" = true ∧
    isInNorthCarolina "PNC Arena" "Raleigh" "SC" = false := by
  decide

/-- C9: every identifier present in the store at load time is still
present at save time, mapped to the same record — the store only grows. -/
theorem store_entries_preserved (start : KStore ShowInfo)
    (fetches : List (String × List Candidate)) (k : String)
    (h : containsKey start k = true) :
    containsKey (runMonitor start fetches).saved k = true ∧
    getVal (runMonitor start fetches).saved k = getVal start k := by
  obtain ⟨h1, h2, _⟩ := runBatches_preserve k fetches ⟨start, [], 0⟩ h
  simp only [runMonitor]
  exact ⟨h1, h2⟩

/-- C9 witness: the stored entry for `"X-2024-01-01"` survives a run that
processes a batch over it. -/
theorem store_entries_preserved_witness :
    containsKey [("X-2024-01-01", storedInfo)] "X-2024-01-01" = true ∧
    (containsKey (runMonitor [("X-2024-01-01", storedInfo)]
        [("Metallica", [Candidate.good sampleShow, Candidate.bad])]).saved
        "X-2024-01-01" = true ∧
     getVal (runMonitor [("X-2024-01-01", storedInfo)]
        [("Metallica", [Candidate.good sampleShow, Candidate.bad])]).saved
        "X-2024-01-01" =
      getVal [("X-2024-01-01", storedInfo)] "X-2024-01-01") :=
  ⟨by decide,
   store_entries_preserved [("X-2024-01-01", storedInfo)]
     [("Metallica", [Candidate.good sampleShow, Candidate.bad])]
     "X-2024-01-01" (by decide)⟩

/-- C10: any location string containing `"nc"` case-insensitively passes
the comic-events location check, and any non-empty region containing
`"nc"` passes the band monitor's location check — both predicates accept
inputs outside North Carolina. -/
theorem nc_substring_false_positive (loc v c r : String)
    (h1 : strHas (lcStr loc) "nc" = true)
    (h2 : strHas (lcStr r) "nc" = true)
    (h3 : r ≠ "") :
    isNcEvent loc = true ∧ isInNorthCarolina v c r = true := by
  constructor
  · simp only [isNcEvent, LOCATIONS, List.any_cons]
    have hl : lcStr "NC" = "nc" := rfl
    rw [hl, h1]
    simp
  · have hcond : (decide (r ≠ "") &&
        (strHas (lcStr r) "nc" || strHas (lcStr r) "north carolina")) = true := by
      rw [h2]
      simp [h3]
    simp only [isInNorthCarolina]
    split
    · rfl
    · simp [hcond]

/-- C10 witness: `"Cincinnati, OH"` passes the comic-events check and a
Cincinnati venue with region `"Princeton"` passes the band check. -/
theorem nc_substring_false_positive_witness :
    strHas (lcStr "Cincinnati, OH") "nc" = true ∧
    strHas (lcStr "Princeton") "nc" = true ∧
    "Princeton" ≠ "" ∧
    (isNcEvent "Cincinnati, OH" = true ∧
     isInNorthCarolina "Duke Energy Center" "Cincinnati" "Princeton" = true) :=
  ⟨by decide, by decide, by decide,
   nc_substring_false_positive "Cincinnati, OH" "Duke Energy Center" "Cincinnati"
     "Princeton" (by decide) (by decide) (by decide)⟩

/-! ## Trace lemmas for the band run's store operations -/

lemma showEvents_no_save (b : String) (st : MonState) (c : Candidate) :
    (showEvents b st c).countP BandEv.isSave = 0 := by
  cases c with
  | bad => rfl
  | good s =>
    simp only [showEvents]
    split
    · split
      · rfl
      · rfl
    · rfl

lemma bandTrace_no_save (b : String) :
    ∀ (cs : List Candidate) (st : MonState),
      (bandTrace b st cs).countP BandEv.isSave = 0 := by
  intro cs
  induction cs with
  | nil => intro st; rfl
  | cons c cs ih =>
    intro st
    simp [bandTrace, List.countP_append, showEvents_no_save, ih]

lemma batchesTrace_no_save :
    ∀ (fs : List (String × List Candidate)) (st : MonState),
      (batchesTrace st fs).countP BandEv.isSave = 0 := by
  intro fs
  induction fs with
  | nil => intro st; rfl
  | cons p rest ih =>
    intro st
    obtain ⟨b, shows⟩ := p
    simp [batchesTrace, List.countP_append, bandTrace_no_save, ih]

/-! ## Remaining claim theorems -/

/-- C3 counterexample: in the hurricanes monitor a game record missing
`gamePk` raises out of `check_games`, so the batch is aborted and a later
new game is never processed — although on its own that game would have
been recorded. -/
theorem hz_malformed_game_aborts_batch :
    hzCheckGames ⟨[], []⟩
      (HzSchedule.dates [⟨"2024-01-01", [hzBadGame, hzGoodGame]⟩]) =
      Except.error () ∧
    hzCheckGames ⟨[], []⟩ (HzSchedule.dates [⟨"2024-01-01", [hzGoodGame]⟩]) =
      Except.ok ⟨[("42", hzGoodInfo)], [hzGoodInfo]⟩ :=
  ⟨rfl, rfl⟩

/-- C3 amended: in the band monitor an error while processing one
candidate only skips that candidate with a diagnostic, and the rest of the
batch is still processed; in the hurricanes monitor, whose loop has no
per-candidate handler, a game missing `gamePk` aborts the whole batch. -/
theorem per_candidate_error_isolation_amended (b : String) (st : MonState)
    (pre post : List Candidate) (d : String) (hst : HzState)
    (ht ha hv hgd : Option String) (gs : List GameRec) :
    checkBand b st (pre ++ Candidate.bad :: post) =
      checkBand b
        { checkBand b st pre with diags := (checkBand b st pre).diags + 1 } post ∧
    processGames d hst (⟨none, ht, ha, hv, hgd⟩ :: gs) = Except.error () := by
  constructor
  · simp only [checkBand, List.foldl_append, List.foldl_cons]
    rfl
  · rfl

/-- C4 counterexample: a hurricanes run that completes successfully but
finds no new game never invokes `save_known_games` — the save count of the
run is 0, not 1. -/
theorem hz_successful_run_without_save :
    hzRun [("42", hzGoodInfo)]
      (HzSchedule.dates [⟨"2024-01-01", [hzGoodGame]⟩]) =
      Except.ok ⟨[("42", hzGoodInfo)], [], 0⟩ :=
  rfl

/-- C4 amended: the band monitor's run performs exactly one save, as its
last store operation, writing the full final mapping; the hurricanes run
saves exactly once when its delta is non-empty and not at all when the
delta is empty. -/
theorem save_once_amended (start : KStore ShowInfo)
    (fetches : List (String × List Candidate))
    (hstart : KStore GameInfo) (sched : HzSchedule) (out : HzRunOut)
    (h : hzRun hstart sched = Except.ok out) :
    (bandRunEvents start fetches).countP BandEv.isSave = 1 ∧
    (bandRunEvents start fetches).getLast? =
      some (BandEv.saveEv (runMonitor start fetches).saved) ∧
    out.saves = (if out.delta.isEmpty then 0 else 1) := by
  refine ⟨?_, ?_, ?_⟩
  · rw [bandRunEvents, List.countP_append, batchesTrace_no_save]
    rfl
  · rw [bandRunEvents, List.getLast?_append_cons]
    rfl
  · rw [hzRun] at h
    cases hcg : hzCheckGames ⟨hstart, []⟩ sched with
    | error e => rw [hcg] at h; cases h
    | ok st =>
      rw [hcg] at h
      dsimp only at h
      by_cases he : st.new.isEmpty
      · rw [if_pos he] at h
        cases h
        simp only [List.isEmpty_iff] at he
        simp [he]
      · rw [if_neg he] at h
        cases h
        simp only [List.isEmpty_iff] at he
        simp [he]

/-- C4 witness: an empty band run and a hurricanes run over a document
without usable dates. -/
theorem save_once_amended_witness :
    hzRun [] HzSchedule.noDates = Except.ok (⟨[], [], 0⟩ : HzRunOut) ∧
    ((bandRunEvents [] []).countP BandEv.isSave = 1 ∧
     (bandRunEvents [] []).getLast? =
       some (BandEv.saveEv (runMonitor [] []).saved) ∧
     (⟨[], [], 0⟩ : HzRunOut).saves =
       (if (⟨[], [], 0⟩ : HzRunOut).delta.isEmpty then 0 else 1)) :=
  ⟨rfl, save_once_amended [] [] [] HzSchedule.noDates ⟨[], [], 0⟩ rfl⟩

/-- C7 counterexample: on a transport failure the hurricanes fetch
returns the null schedule (`None`), which is not the empty candidate
sequence the claim describes. -/
theorem hz_fetch_failure_not_empty_seq :
    fetchSchedule HzNet.err = HzSchedule.fail ∧
    HzSchedule.fail ≠ HzSchedule.dates ([] : List DateInfo) :=
  ⟨rfl, by decide⟩

/-- C7 amended: neither fetch raises on failure; the band fetch returns an
empty candidate list (also for a malformed payload), while the hurricanes
fetch returns the null schedule, which `check_games` treats as zero
candidates — in both monitors the run continues and the store is
unchanged. -/
theorem fetch_failure_recovery_amended (b : String) (mst : MonState)
    (hst : HzState) :
    fetchShows BandNet.err = [] ∧
    fetchShows BandNet.nonList = [] ∧
    checkBand b mst (fetchShows BandNet.err) = mst ∧
    fetchSchedule HzNet.err = HzSchedule.fail ∧
    hzCheckGames hst (fetchSchedule HzNet.err) = Except.ok hst :=
  ⟨rfl, rfl, rfl, rfl, rfl⟩

end Monitors
